import Mathlib

/-!
Verification of the proposal-generation pipeline of the `ai-freelance-ai`
repository (`app/workflows/proposal.py`, `app/main.py`, `app/prompts.py`,
`app/models.py`) against its natural-language specification.

The Python code is shallowly embedded: strings are `String`/`List Char`,
Python dicts are association lists, the model gateway is an oracle mapping
each call site to either a response text or a failure, and an uncaught
Python exception is an `Except.error`.  JSON numbers are modelled as
integers (the estimation prompt demands the exact shape
`{"duration_days": <int>, "price": <int>}`); fractional JSON literals are
modelled as parse failures.  All definitions are executable and reduce by
`rfl`/`decide` (recursions are structural, with explicit fuel where the
Python loop is not structurally decreasing).
-/

set_option maxRecDepth 8000

namespace AiFreelance

/-- The backtick character (written via its code point). -/
def tickC : Char := Char.ofNat 96

/-- The left-brace character (written via its code point). -/
def lbrC : Char := Char.ofNat 123

/-- The right-brace character (written via its code point). -/
def rbrC : Char := Char.ofNat 125

/-- Python `str` whitespace for `str.strip()` (ASCII range):
space, tab, newline, carriage return, vertical tab, form feed. -/
def pyWs (c : Char) : Bool :=
  c = ' ' || c = '\t' || c = '\n' || c = '\r' || c = Char.ofNat 11 || c = Char.ofNat 12

/-- Python `str.strip()` on a character list. -/
def pyStrip (l : List Char) : List Char :=
  ((l.dropWhile pyWs).reverse.dropWhile pyWs).reverse

/-- Python `s.split('\n')` on a character list: split on every newline,
keeping empty pieces. -/
def splitNl : List Char → List (List Char)
  | [] => [[]]
  | c :: rest =>
    match splitNl rest with
    | [] => [[c]]
    | s :: ss => if c = '\n' then [] :: s :: ss else (c :: s) :: ss

/-- Python `str.lower()` restricted to ASCII (the inputs of interest). -/
def pyLower (l : List Char) : List Char := l.map Char.toLower

/-- Python dict assignment `m[k] = v`: replace the existing binding in place,
else append at the end (insertion order preserved, as in CPython). -/
def dictInsert (k v : String) : List (String × String) → List (String × String)
  | [] => [(k, v)]
  | (k', v') :: rest => if k' = k then (k, v) :: rest else (k', v') :: dictInsert k v rest

/-- Python `m.get(k, d)`. -/
def dictGetD (m : List (String × String)) (k d : String) : String :=
  match m with
  | [] => d
  | (k', v) :: rest => if k' = k then v else dictGetD rest k d

/-- Decimal digits of a natural number, most significant first. -/
def natDigits (n : Nat) : List Char :=
  (Nat.toDigits 10 n)

/-- Helper for `groupDigits`: walk the reversed digit list, inserting a comma
after every third digit (except at the end). -/
def groupGo : List Char → Nat → List Char
  | [], _ => []
  | c :: rest, k =>
    if k = 3 then
      match rest with
      | [] => [c]
      | _ => c :: ',' :: groupGo rest 1
    else c :: groupGo rest (k + 1)

/-- Group a digit list (most significant first) with commas every three
digits, as Python's `format(n, ',')` does. -/
def groupDigits (l : List Char) : List Char :=
  (groupGo l.reverse 1).reverse

/-- Python `f"{n:,}"` for an integer: thousands separators, minus sign for
negatives. -/
def commaFormat (n : Int) : String :=
  if n < 0 then String.mk ('-' :: groupDigits (natDigits n.natAbs))
  else String.mk (groupDigits (natDigits n.natAbs))

/-- JSON values as produced by `json.loads`.  Numbers are modelled as
integers: the estimation prompt demands `\x7b"duration_days": <int>,
"price": <int>\x7d`, and fractional literals are modelled as parse
failures. -/
inductive Json where
  | jnull : Json
  | jbool : Bool → Json
  | jnum : Int → Json
  | jstr : String → Json
  | jarr : List Json → Json
  | jobj : List (String × Json) → Json

/-- JSON-spec whitespace (what `json.loads` skips between tokens). -/
def jsonWs (c : Char) : Bool :=
  c = ' ' || c = '\t' || c = '\n' || c = '\r'

/-- Decimal digit test. -/
def isDig (c : Char) : Bool := '0' ≤ c && c ≤ '9'

/-- Value of a hex digit, if any. -/
def hexVal (c : Char) : Option Nat :=
  if '0' ≤ c && c ≤ '9' then some (c.toNat - 48)
  else if 'a' ≤ c && c ≤ 'f' then some (c.toNat - 87)
  else if 'A' ≤ c && c ≤ 'F' then some (c.toNat - 55)
  else none

/-- Numeric value of a digit list, most significant first. -/
def digitsVal : List Char → Nat → Nat
  | [], acc => acc
  | c :: rest, acc => digitsVal rest (acc * 10 + (c.toNat - 48))

/-- Body of a JSON string literal (after the opening quote): returns the
decoded characters and the remainder after the closing quote.  Mirrors
`json.loads` in strict mode: raw control characters are rejected, the
escapes are the eight JSON escapes plus `\uXXXX`. -/
def parseStrBody : Nat → List Char → Option (List Char × List Char)
  | 0, _ => none
  | _, [] => none
  | fuel + 1, c :: rest =>
    if c = '"' then some ([], rest)
    else if c = '\\' then
      match rest with
      | [] => none
      | e :: rest2 =>
        if e = 'u' then
          match rest2 with
          | h1 :: h2 :: h3 :: h4 :: rest3 =>
            match hexVal h1, hexVal h2, hexVal h3, hexVal h4 with
            | some a, some b, some c2, some d =>
              match parseStrBody fuel rest3 with
              | some (s, r) => some (Char.ofNat (((a * 16 + b) * 16 + c2) * 16 + d) :: s, r)
              | none => none
            | _, _, _, _ => none
          | _ => none
        else
          let dec : Option Char :=
            if e = '"' then some '"'
            else if e = '\\' then some '\\'
            else if e = '/' then some '/'
            else if e = 'b' then some (Char.ofNat 8)
            else if e = 'f' then some (Char.ofNat 12)
            else if e = 'n' then some '\n'
            else if e = 'r' then some '\r'
            else if e = 't' then some '\t'
            else none
          match dec with
          | some d =>
            match parseStrBody fuel rest2 with
            | some (s, r) => some (d :: s, r)
            | none => none
          | none => none
    else if c.toNat < 32 then none
    else
      match parseStrBody fuel rest with
      | some (s, r) => some (c :: s, r)
      | none => none

/-- Integer literal after an optional leading minus has been consumed:
digits with the JSON leading-zero rule; rejects a following `.`, `e`, `E`
(fractional and exponent forms are modelled as failures). -/
def parseNumBody (l : List Char) : Option (Nat × List Char) :=
  let digs := l.takeWhile isDig
  let rest := l.dropWhile isDig
  match digs with
  | [] => none
  | d :: ds =>
    if d = '0' && ds ≠ [] then none
    else
      match rest with
      | c :: _ => if c = '.' || c = 'e' || c = 'E' then none else some (digitsVal digs 0, rest)
      | [] => some (digitsVal digs 0, rest)

/-- Parser modes: a single value, the elements of an array (after `[`), or
the members of an object (after the opening brace). -/
inductive PMode where
  | val : PMode
  | arrElems : Bool → PMode
  | objFields : Bool → PMode

/-- Fueled recursive-descent JSON parser (the fuel makes the recursion
structural so that terms reduce by `rfl`). -/
def parseJ : Nat → PMode → List Char → Option (Json × List Char)
  | 0, _, _ => none
  | fuel + 1, PMode.val, l =>
    match l.dropWhile jsonWs with
    | [] => none
    | c :: rest =>
      if c = '"' then
        match parseStrBody (fuel + 1) rest with
        | some (s, r) => some (Json.jstr (String.mk s), r)
        | none => none
      else if c = '[' then parseJ fuel (PMode.arrElems true) rest
      else if c = lbrC then parseJ fuel (PMode.objFields true) rest
      else if c = '-' then
        match parseNumBody rest with
        | some (n, r) => some (Json.jnum (-(Int.ofNat n)), r)
        | none => none
      else if isDig c then
        match parseNumBody (c :: rest) with
        | some (n, r) => some (Json.jnum (Int.ofNat n), r)
        | none => none
      else
        match c :: rest with
        | 't' :: 'r' :: 'u' :: 'e' :: r => some (Json.jbool true, r)
        | 'f' :: 'a' :: 'l' :: 's' :: 'e' :: r => some (Json.jbool false, r)
        | 'n' :: 'u' :: 'l' :: 'l' :: r => some (Json.jnull, r)
        | _ => none
  | fuel + 1, PMode.arrElems first, l =>
    let l' := l.dropWhile jsonWs
    match l' with
    | ']' :: r => if first then some (Json.jarr [], r) else none
    | _ =>
      match parseJ fuel PMode.val l' with
      | none => none
      | some (v, r) =>
        match r.dropWhile jsonWs with
        | ']' :: r2 => some (Json.jarr [v], r2)
        | ',' :: r2 =>
          match parseJ fuel (PMode.arrElems false) r2 with
          | some (Json.jarr vs, r3) => some (Json.jarr (v :: vs), r3)
          | _ => none
        | _ => none
  | fuel + 1, PMode.objFields first, l =>
    let l' := l.dropWhile jsonWs
    match l' with
    | [] => none
    | c :: rest =>
      if c = rbrC then
        if first then some (Json.jobj [], rest) else none
      else if c = '"' then
        match parseStrBody (fuel + 1) rest with
        | none => none
        | some (k, r) =>
          match r.dropWhile jsonWs with
          | ':' :: r2 =>
            match parseJ fuel PMode.val r2 with
            | none => none
            | some (v, r3) =>
              match r3.dropWhile jsonWs with
              | c4 :: r4 =>
                if c4 = rbrC then some (Json.jobj [(String.mk k, v)], r4)
                else if c4 = ',' then
                  match parseJ fuel (PMode.objFields false) r4 with
                  | some (Json.jobj fs, r5) => some (Json.jobj ((String.mk k, v) :: fs), r5)
                  | _ => none
                else none
              | [] => none
          | _ => none
      else none

/-- Python `json.loads`: parse one value, allowing surrounding whitespace,
requiring the whole input to be consumed; `none` models a raised
`JSONDecodeError`. -/
def jsonLoads (l : List Char) : Option Json :=
  match parseJ (2 * l.length + 8) PMode.val l with
  | some (v, r) => if r.dropWhile jsonWs = [] then some v else none
  | none => none

/-- Python dict lookup on the fields of a parsed JSON object (duplicate keys:
the last occurrence wins, as in `json.loads`); subscripting a non-object or a
missing key is a raised exception, modelled as `none`. -/
def jsonGet (v : Json) (k : String) : Option Json :=
  match v with
  | Json.jobj fields =>
    match fields.reverse.find? (fun p => p.fst = k) with
    | some p => some p.snd
    | none => none
  | _ => none

/-- Python `int(x)` on a decoded JSON value: integers stay, booleans become
0/1, strings are parsed as optionally signed decimal numerals with
surrounding whitespace; everything else raises (`none`). -/
def pyToInt (v : Json) : Option Int :=
  match v with
  | Json.jnum n => some n
  | Json.jbool b => some (if b then 1 else 0)
  | Json.jstr s =>
    let l := pyStrip s.data
    let core : Option (List Char) :=
      match l with
      | '-' :: ds => if ds = [] then none else some ds
      | '+' :: ds => if ds = [] then none else some ds
      | ds => if ds = [] then none else some ds
    match core with
    | none => none
    | some ds =>
      if ds.all isDig then
        match l with
        | '-' :: _ => some (-(Int.ofNat (digitsVal ds 0)))
        | _ => some (Int.ofNat (digitsVal ds 0))
      else none
  | _ => none

/-- Python `re.sub(r'```xyzw\n?', '', s)` for a four-letter fence tag
(`html` or `json`): remove each occurrence of three backticks followed by
the tag and an optional newline, scanning left to right without rescanning
replacements. -/
def removeFence4 (w x y z : Char) : List Char → List Char
  | a :: b :: c :: d :: e :: f :: g :: rest2 =>
    if a = tickC && b = tickC && c = tickC && d = w && e = x && f = y && g = z then
      match rest2 with
      | h :: rest3 =>
        if h = '\n' then removeFence4 w x y z rest3
        else removeFence4 w x y z (h :: rest3)
      | [] => []
    else a :: removeFence4 w x y z (b :: c :: d :: e :: f :: g :: rest2)
  | l => l

/-- Python `re.sub(r'```\n?', '', s)`: remove each occurrence of three
backticks and an optional following newline, scanning left to right. -/
def removeTicks : List Char → List Char
  | a :: b :: c :: rest2 =>
    if a = tickC && b = tickC && c = tickC then
      match rest2 with
      | d :: rest3 =>
        if d = '\n' then removeTicks rest3
        else removeTicks (d :: rest3)
      | [] => []
    else a :: removeTicks (b :: c :: rest2)
  | l => l

/-- The allow-list of tag names in `clean_html`'s first-tag regex
`<(h[1-6]|p|ul|ol|div|section|article|blockquote|table|strong|em|a|span|br)`. -/
def tagNames : List (List Char) :=
  ["h1", "h2", "h3", "h4", "h5", "h6", "p", "ul", "ol", "div", "section",
   "article", "blockquote", "table", "strong", "em", "a", "span", "br"].map String.data

/-- Does the text directly after a `<` begin (case-insensitively) with one of
the allowed tag names? -/
def matchesTag (l : List Char) : Bool :=
  tagNames.any (fun t => t.isPrefixOf (pyLower l))

/-- Index of the first `<` that starts an allowed tag
(`re.search(...).start()` of the first-tag regex), if any. -/
def findTag : List Char → Option Nat
  | [] => none
  | c :: rest =>
    if c = '<' && matchesTag rest then some 0
    else (findTag rest).map (· + 1)

/-- The conversational-filler marker phrases of `clean_html`. -/
def convMarkers : List (List Char) :=
  ["here is", "here\x27s", "sure", "certainly", "below is", "following is",
   "output:", "html:", "berikut", "adalah", "ini"].map String.data

/-- Substring test: does `pat` occur contiguously in the list? -/
def hasSub (pat : List Char) : List Char → Bool
  | [] => pat.isEmpty
  | c :: rest => pat.isPrefixOf (c :: rest) || hasSub pat rest

/-- Python `any(marker in preamble.lower() for marker in conversational_markers)`. -/
def isConv (pre : List Char) : Bool :=
  convMarkers.any (fun m => hasSub m (pyLower pre))

/-- Python `'\n'.join(...)` on character lists. -/
def joinNl : List (List Char) → List Char
  | [] => []
  | [w] => w
  | w :: ws => w ++ '\n' :: joinNl ws

/-- Wrap a line in a `<p>` tag. -/
def wrapP (l : List Char) : List Char :=
  '<' :: 'p' :: '>' :: l ++ ['<', '/', 'p', '>']

/-- The line-wrapping branch of `clean_html`: strip each line, drop blank
ones, wrap the rest in `<p>` tags. -/
def wrapLines (ls : List (List Char)) : List (List Char) :=
  ((ls.map pyStrip).filter (· ≠ [])).map wrapP

/-- Match attempt of `(?<=>)\s*\n\s*([^<\n]+)\s*\n\s*(?=<)` at a position
right after a `>`, restricted to the segment `seg` running up to (but not
including) the next `<`.  Returns the stripped capture group when the
segment splits as whitespace-containing-a-newline, then a nonempty
newline-free run, then whitespace-containing-a-newline. -/
def siteBetween (seg : List Char) : List Char :=
  ((((seg.dropWhile (· ≠ '\n')).drop 1).reverse.dropWhile (· ≠ '\n')).drop 1)

/-- The match decision itself (see `siteBetween` for the all-whitespace
helper): `some` holds the stripped capture group. -/
def siteMatch (seg : List Char) : Option (List Char) :=
  if seg.all pyWs then
    if (siteBetween seg).any (· ≠ '\n') then some [] else none
  else
    if ('\n' ∈ seg.takeWhile pyWs) && ('\n' ∈ seg.reverse.takeWhile pyWs) &&
       ('\n' ∉ pyStrip seg) then
      some (pyStrip seg)
    else none

/-- One site test for the orphan-text pass: at a position right after a `>`,
with `rest` the remaining text.  On success, returns the stripped capture
and the remainder starting at the `<` that the lookahead saw. -/
def trySite (rest : List Char) : Option (List Char × List Char) :=
  if (rest.takeWhile (· ≠ '<')).length = rest.length then none
  else
    match siteMatch (rest.takeWhile (· ≠ '<')) with
    | some core => some (core, rest.drop (rest.takeWhile (· ≠ '<')).length)
    | none => none

/-- Scanner for `re.sub(r'(?<=>)\s*\n\s*([^<\n]+)\s*\n\s*(?=<)', ...)`:
walk the text; after each `>` attempt a match; on success emit
`\n<p>{group.strip()}</p>\n` in place of the matched span and continue at
the `<` (regex replacements are not rescanned).  The fuel keeps the
recursion structural; it is initialised to the text length. -/
def orphanGo : Nat → List Char → List Char
  | 0, l => l
  | _ + 1, [] => []
  | fuel + 1, c :: rest =>
    if c = '>' then
      match trySite rest with
      | some (core, rest') =>
        c :: ('\n' :: '<' :: 'p' :: '>' :: core ++ ['<', '/', 'p', '>', '\n']) ++ orphanGo fuel rest'
      | none => c :: orphanGo fuel rest
    else c :: orphanGo fuel rest

/-- The orphan-text wrapping pass of `clean_html` (its final `re.sub`). -/
def orphanSub (l : List Char) : List Char := orphanGo l.length l

/-- The branching middle of `clean_html`: first-tag search with preamble
classification when a tag is found, per-line wrapping otherwise. -/
def cleanCore (c2 : List Char) : List Char :=
  match findTag c2 with
  | some i =>
    if pyStrip (c2.take i) ≠ [] && decide ((pyStrip (c2.take i)).length > 3) &&
       !(isConv (pyStrip (c2.take i))) then
      ('<' :: 'p' :: '>' :: pyStrip (c2.take i) ++ ['<', '/', 'p', '>', '\n']) ++ c2.drop i
    else c2.drop i
  | none => joinNl (wrapLines (splitNl c2))

/-- `clean_html` on character lists: fence removal, strip, the core branch,
orphan-text wrapping, final strip. -/
def cleanHtmlL (l : List Char) : List Char :=
  pyStrip (orphanSub (cleanCore (pyStrip (removeTicks (removeFence4 'h' 't' 'm' 'l' l)))))

/-- `clean_html` of `app/workflows/proposal.py`. -/
def clean_html (s : String) : String := String.mk (cleanHtmlL s.data)

/-- `re.search(r'\x7b[^\x7d]+\x7d', s)`: the first substring consisting of a
left brace, one or more non-right-brace characters, and a right brace.
Scan for a left brace; the body is everything up to the first right brace
after it, which must be nonempty and must exist; otherwise keep scanning. -/
def findJsonObj : List Char → Option (List Char)
  | [] => none
  | c :: rest =>
    if c = lbrC then
      if rest.takeWhile (· ≠ rbrC) ≠ [] ∧ (rest.takeWhile (· ≠ rbrC)).length < rest.length then
        some (lbrC :: rest.takeWhile (· ≠ rbrC) ++ [rbrC])
      else findJsonObj rest
    else findJsonObj rest

/-- `FreelancerProfile` of `app/models.py`. -/
structure FreelancerProfile where
  stack : List String
  rate_type : String
  min_price : Int
  currency : String

/-- `ProposalRequest` of `app/models.py`. -/
structure ProposalRequest where
  proposal_id : Int
  brief : String
  user_brief : Option String
  language : String
  freelancer_profile : FreelancerProfile
  callback_url : String

/-- `ProposalEstimation` of `app/models.py`. -/
structure ProposalEstimation where
  duration_days : Int
  price : Int
deriving DecidableEq

/-- `ProposalState` of `app/workflows/proposal.py`: the mutable work record
threaded through the pipeline.  The sections dict is an association list in
insertion order; the scope holds decoded JSON values (the code stores
whatever list `json.loads` returned). -/
structure ProposalState where
  request : ProposalRequest
  brief_analysis : String
  sections : List (String × String)
  scope : List Json
  estimation : ProposalEstimation
  proposal_html : String
  error : Option String

/-- One row of `LANGUAGE_CONFIGS` in `app/prompts.py`. -/
structure LangConfig where
  name : String
  introduction_title : String
  needs_title : String
  approach_title : String
  strengths_title : String
  timeline_title : String
  pricing_title : String
  credentials_title : String
  social_proof_title : String
  terms_title : String

/-- The `"en"` row of `LANGUAGE_CONFIGS`. -/
def enConfig : LangConfig :=
  ⟨"English", "Introduction", "Understanding Your Needs", "Proposed Approach",
   "Why Work With Me", "Project Timeline", "Investment", "Relevant Experience",
   "Client Testimonials", "Working Together"⟩

/-- The `"id"` row of `LANGUAGE_CONFIGS`. -/
def idConfig : LangConfig :=
  ⟨"Indonesian", "Perkenalan", "Pemahaman Kebutuhan Anda", "Pendekatan yang Diusulkan",
   "Mengapa Bekerja Dengan Saya", "Timeline Proyek", "Investasi", "Pengalaman Relevan",
   "Testimoni Klien", "Cara Kerja Kami"⟩

/-- `LANGUAGE_CONFIGS` of `app/prompts.py` as a partial lookup: defined for
exactly the keys `"en"` and `"id"`; `none` models the `KeyError` raised by
`LANGUAGE_CONFIGS[lang]` on any other language code. -/
def LANGUAGE_CONFIGS (lang : String) : Option LangConfig :=
  if lang = "en" then some enConfig
  else if lang = "id" then some idConfig
  else none

/-- The language-specific default scope list of `generate_scope`
(`["Web Development", ...]` for `"en"`, the Indonesian list otherwise). -/
def defaultScope (lang : String) : List Json :=
  if lang = "en" then
    [Json.jstr "Web Development", Json.jstr "UI/UX Design", Json.jstr "Deployment"]
  else
    [Json.jstr "Pengembangan Web", Json.jstr "Desain UI/UX", Json.jstr "Deployment"]

/-- The text-cleaning part of `generate_scope`'s `try` block: strip the
response, then remove ```json fences and bare fences. -/
def scopeClean (content : String) : List Char :=
  removeTicks (removeFence4 'j' 's' 'o' 'n' (pyStrip content.data))

/-- Decision taken on the cleaned scope text (see `scopeParse`). -/
def scopeDecide (c : List Char) : Option (List Json) :=
  match jsonLoads c with
  | some (Json.jarr xs) => some xs
  | some _ => some [Json.jstr (String.mk c)]
  | none => none

/-- The parsing part of `generate_scope`'s `try` block: `json.loads` the
cleaned text; a list is used verbatim, any other parsed value yields
`[content]` (the singleton holding the processed text).  `none` models the
`json.JSONDecodeError` that sends the stage to its fallback. -/
def scopeParse (content : String) : Option (List Json) :=
  scopeDecide (scopeClean content)

/-- The deterministic fallback estimation of `estimate_project`:
`min(scope_count * 5, 30)` days and the freelancer's minimum price. -/
def fallbackEstimation (scope_count : Nat) (min_price : Int) : ProposalEstimation :=
  ⟨Int.ofNat (min (scope_count * 5) 30), min_price⟩

/-- The extraction logic of `estimate_project`: find the first
JSON-object-shaped substring of the raw response and parse it; use
`int(obj['duration_days'])` and `int(obj['price'])` when both succeed, and
the deterministic fallback when the object is missing or any step of the
`try` block raises. -/
def estimateFromContent (content : String) (scope_count : Nat) (min_price : Int) :
    ProposalEstimation :=
  match findJsonObj content.data with
  | none => fallbackEstimation scope_count min_price
  | some objStr =>
    match jsonLoads objStr with
    | none => fallbackEstimation scope_count min_price
    | some v =>
      match (jsonGet v "duration_days").bind pyToInt, (jsonGet v "price").bind pyToInt with
      | some d, some p => ⟨d, p⟩
      | _, _ => fallbackEstimation scope_count min_price

/-- The seven gateway-calling section generators that index
`LANGUAGE_CONFIGS` plus the introduction generator (which does not), i.e.
every section stage that makes a model call. -/
inductive Sec where
  | intro : Sec
  | needs : Sec
  | approach : Sec
  | strengths : Sec
  | timeline : Sec
  | pricing : Sec
  | credentials : Sec
  | terms : Sec
deriving DecidableEq

/-- The section-dict key each gateway-calling section stage writes. -/
def secKey : Sec → String
  | Sec.intro => "introduction"
  | Sec.needs => "needs"
  | Sec.approach => "approach"
  | Sec.strengths => "strengths"
  | Sec.timeline => "timeline"
  | Sec.pricing => "pricing"
  | Sec.credentials => "credentials"
  | Sec.terms => "terms"

/-- The fixed fallback fragment each section stage stores when its gateway
call fails, exactly as written in the stage's `except` branch
(`app/workflows/proposal.py`).  The introduction fallback is a hard-coded
English sentence; the others interpolate the language config's section
title, and timeline/pricing also interpolate the current estimation and
currency (`\x7b:,\x7d` formatting for the price). -/
def secFallback (sec : Sec) (config : LangConfig) (req : ProposalRequest)
    (est : ProposalEstimation) : String :=
  match sec with
  | Sec.intro =>
    "<p>Hello, I\x27m a professional web developer ready to help with your project.</p>"
  | Sec.needs =>
    "<h3>" ++ config.needs_title ++ "</h3><p>I understand your project requirements.</p>"
  | Sec.approach =>
    "<h3>" ++ config.approach_title ++ "</h3><p>I will follow a structured development process.</p>"
  | Sec.strengths =>
    "<h3>" ++ config.strengths_title ++ "</h3><ul><li>Technical expertise</li><li>Strong communication</li></ul>"
  | Sec.timeline =>
    "<h3>" ++ config.timeline_title ++ "</h3><p>" ++ toString est.duration_days ++ " days</p>"
  | Sec.pricing =>
    "<h3>" ++ config.pricing_title ++ "</h3><p>" ++ req.freelancer_profile.currency ++ " " ++ commaFormat est.price ++ "</p>"
  | Sec.credentials =>
    "<h3>" ++ config.credentials_title ++ "</h3><ul><li>Professional tools</li></ul>"
  | Sec.terms =>
    "<h3>" ++ config.terms_title ++ "</h3><p>Clear communication and delivery.</p>"

/-- The model gateway as seen by one pipeline run: what each call site's
`llm.invoke` returns — generated text, or a raised provider error carrying
its message. -/
structure Oracle where
  analyze : Except String String
  scope : Except String String
  estimate : Except String String
  sect : Sec → Except String String

/-- `analyze_brief`: store the raw response as the brief analysis; on a
gateway failure set the terminal error.  (It is the first stage and performs
no error check.) -/
def analyze_brief (resp : Except String String) (s : ProposalState) : ProposalState :=
  match resp with
  | Except.ok content => { s with brief_analysis := content }
  | Except.error e => { s with error := some ("Failed to analyze brief: " ++ e) }

/-- The scope stored by `generate_scope` on a successful gateway call: the
parse result when `json.loads` succeeded, else the fixed default list (the
`except` branch). -/
def scopeResult (content : String) (lang : String) : List Json :=
  match scopeParse content with
  | some xs => xs
  | none => defaultScope lang

/-- `generate_scope`: skip when an error is set; parse the response
(`scopeParse`); on a gateway failure or parse failure store the fixed
language-specific default list. -/
def generate_scope (resp : Except String String) (s : ProposalState) : ProposalState :=
  if s.error.isSome then s
  else
    match resp with
    | Except.error _ => { s with scope := defaultScope s.request.language }
    | Except.ok content => { s with scope := scopeResult content s.request.language }

/-- Does the decoded scope list consist solely of JSON strings?  Python's
`', '.join(state['scope'])` raises `TypeError` on any other item, and
`generate_scope` stores `json.loads` lists verbatim, so non-string items
are reachable. -/
def scopeAllStrings (xs : List Json) : Bool :=
  xs.all fun v =>
    match v with
    | Json.jstr _ => true
    | _ => false

/-- The uncaught `TypeError` raised by `', '.join(state['scope'])` on a
non-string scope item (modelled message). -/
def typeErrorJoin : String := "TypeError: sequence item: expected str instance"

/-- The estimation `estimate_project` stores: the extraction policy on a
successful response, the deterministic fallback on a gateway failure. -/
def estValue (r : Except String String) (scope_count : Nat) (mp : Int) : ProposalEstimation :=
  match r with
  | Except.error _ => fallbackEstimation scope_count mp
  | Except.ok content => estimateFromContent content scope_count mp

/-- `estimate_project`: skip when an error is set; then the user prompt
interpolates `', '.join(state['scope'])` outside the `try`
(`proposal.py:170`), so a non-string scope item raises an uncaught
`TypeError` before the gateway is ever invoked; otherwise store the
extracted or fallback estimation. -/
def estimate_project (resp : Except String String) (s : ProposalState) :
    Except String ProposalState :=
  if s.error.isSome then Except.ok s
  else if !(scopeAllStrings s.scope) then Except.error typeErrorJoin
  else
    Except.ok
      { s with estimation :=
          estValue resp s.scope.length s.request.freelancer_profile.min_price }

/-- `init_sections`: unconditionally reset the sections dict (the source has
no error check in this stage). -/
def init_sections (s : ProposalState) : ProposalState :=
  { s with sections := [] }

/-- The content a section stage stores: the normalized response on success,
the stage's fixed fallback fragment on gateway failure. -/
def secValue (sec : Sec) (r : Except String String) (config : LangConfig)
    (req : ProposalRequest) (est : ProposalEstimation) : String :=
  match r with
  | Except.ok content => clean_html content
  | Except.error _ => secFallback sec config req est

/-- `generate_introduction`: skip on error; no `LANGUAGE_CONFIGS` lookup;
store the normalized response, or the fixed fallback on gateway failure
(the introduction fallback ignores the config). -/
def generate_introduction (resp : Except String String) (s : ProposalState) : ProposalState :=
  if s.error.isSome then s
  else
    { s with sections :=
        (dictInsert "introduction" (secValue Sec.intro resp enConfig s.request s.estimation)
          s.sections) }

/-- Which gateway-backed section prompts interpolate
`', '.join(state['scope'])` before their `try` blocks: approach
(`proposal.py:323`), timeline (`proposal.py:385`) and pricing
(`proposal.py:416`); their join raises `TypeError` on a non-string scope
item.  The other section prompts join only the (always-string) tech stack
or use no list at all. -/
def secJoinsScope : Sec → Bool
  | Sec.approach => true
  | Sec.timeline => true
  | Sec.pricing => true
  | _ => false

/-- Common body of the seven section generators that first evaluate
`config = LANGUAGE_CONFIGS[lang]` outside their `try` blocks: skip on
error; raise `KeyError` (as `Except.error`) for an unknown language code;
then (for the stages whose prompt joins the scope) raise `TypeError` on a
non-string scope item; otherwise store the normalized response, or the
stage's fixed fallback on gateway failure. -/
def configSection (sec : Sec) (resp : Except String String) (s : ProposalState) :
    Except String ProposalState :=
  if s.error.isSome then Except.ok s
  else
    match LANGUAGE_CONFIGS s.request.language with
    | none => Except.error ("KeyError: " ++ s.request.language)
    | some config =>
      if secJoinsScope sec && !(scopeAllStrings s.scope) then Except.error typeErrorJoin
      else
        Except.ok
          { s with sections :=
              dictInsert (secKey sec) (secValue sec resp config s.request s.estimation) s.sections }

/-- `generate_needs_assessment` (`config = LANGUAGE_CONFIGS[lang]` before the
`try`, then the common section shape). -/
def generate_needs_assessment (resp : Except String String) (s : ProposalState) :
    Except String ProposalState :=
  configSection Sec.needs resp s

/-- `generate_approach`. -/
def generate_approach (resp : Except String String) (s : ProposalState) :
    Except String ProposalState :=
  configSection Sec.approach resp s

/-- `generate_strengths`. -/
def generate_strengths (resp : Except String String) (s : ProposalState) :
    Except String ProposalState :=
  configSection Sec.strengths resp s

/-- `generate_timeline`. -/
def generate_timeline (resp : Except String String) (s : ProposalState) :
    Except String ProposalState :=
  configSection Sec.timeline resp s

/-- `generate_pricing`. -/
def generate_pricing (resp : Except String String) (s : ProposalState) :
    Except String ProposalState :=
  configSection Sec.pricing resp s

/-- `generate_credentials`. -/
def generate_credentials (resp : Except String String) (s : ProposalState) :
    Except String ProposalState :=
  configSection Sec.credentials resp s

/-- `generate_social_proof`: skip on error; store an empty string without
any gateway call (the code deliberately skips fake testimonials). -/
def generate_social_proof (s : ProposalState) : ProposalState :=
  if s.error.isSome then s
  else { s with sections := dictInsert "social_proof" "" s.sections }

/-- `generate_terms`. -/
def generate_terms (resp : Except String String) (s : ProposalState) :
    Except String ProposalState :=
  configSection Sec.terms resp s

/-- The fixed canonical assembly order of `assemble_proposal`. -/
def canonicalKeys : List String :=
  ["introduction", "needs", "approach", "strengths", "timeline", "pricing",
   "credentials", "social_proof", "terms"]

/-- Pure assembly: read the section dict in the canonical key order with
default `""`, drop empty entries (`filter(None, ...)`), join with a blank
line. -/
def assembleHtml (m : List (String × String)) : String :=
  String.intercalate "\n\n"
    ([dictGetD m "introduction" "", dictGetD m "needs" "", dictGetD m "approach" "",
      dictGetD m "strengths" "", dictGetD m "timeline" "", dictGetD m "pricing" "",
      dictGetD m "credentials" "", dictGetD m "social_proof" "",
      dictGetD m "terms" ""].filter (· ≠ ""))

/-- `assemble_proposal`: skip on error; store the assembled document. -/
def assemble_proposal (s : ProposalState) : ProposalState :=
  if s.error.isSome then s
  else { s with proposal_html := assembleHtml s.sections }

/-- The initial workflow state built in `process_proposal_sync`
(`app/main.py`). -/
def initialState (req : ProposalRequest) : ProposalState :=
  ⟨req, "", [], [], ⟨0, 0⟩, "", none⟩

/-- The first five nodes of the chain (`analyze_brief` through
`generate_introduction`); `estimate_project` is the one stage among them
that can raise (the scope join's `TypeError`). -/
def pipelineHead (o : Oracle) (req : ProposalRequest) : Except String ProposalState :=
  (estimate_project o.estimate
      (generate_scope o.scope
        (analyze_brief o.analyze (initialState req)))).bind fun s3 =>
    Except.ok (generate_introduction (o.sect Sec.intro) (init_sections s3))

/-- The 14-node straight-line LangGraph chain of `create_proposal_workflow`,
threaded through `Except` so that an uncaught `KeyError` from a section
stage aborts the run. -/
def runPipeline (o : Oracle) (req : ProposalRequest) : Except String ProposalState :=
  (pipelineHead o req).bind fun s5 =>
  (generate_needs_assessment (o.sect Sec.needs) s5).bind fun s6 =>
  (generate_approach (o.sect Sec.approach) s6).bind fun s7 =>
  (generate_strengths (o.sect Sec.strengths) s7).bind fun s8 =>
  (generate_timeline (o.sect Sec.timeline) s8).bind fun s9 =>
  (generate_pricing (o.sect Sec.pricing) s9).bind fun s10 =>
  (generate_credentials (o.sect Sec.credentials) s10).bind fun s11 =>
  (generate_terms (o.sect Sec.terms) (generate_social_proof s11)).bind fun s13 =>
  Except.ok (assemble_proposal s13)

/-- `ProposalResponse` of `app/models.py` (scope carries the decoded JSON
list, as the state does). -/
structure ProposalResponse where
  proposal_id : Int
  status : String
  need_clarification : Bool
  summary : String
  scope : List Json
  estimation : ProposalEstimation
  content : String
  error : Option String

/-- The response construction of `process_proposal_sync` (`app/main.py`):
a set error field means status `"failed"` with empty payload, otherwise
status `"completed"` with the state's scope, estimation and document; an
exception escaping the workflow is caught by the outer handler and also
reported as `"failed"`. -/
def process_proposal_sync (o : Oracle) (req : ProposalRequest) : ProposalResponse :=
  match runPipeline o req with
  | Except.ok finalState =>
    match finalState.error with
    | some e =>
      ⟨req.proposal_id, "failed", false, "Failed to generate proposal", [], ⟨0, 0⟩, "", some e⟩
    | none =>
      ⟨req.proposal_id, "completed", false,
       "Klien membutuhkan pengembangan software/website dengan fitur spesifik.",
       finalState.scope, finalState.estimation, finalState.proposal_html, none⟩
  | Except.error e =>
    ⟨req.proposal_id, "failed", false, "Error during proposal generation", [], ⟨0, 0⟩, "", some e⟩

theorem error_analyze_ok (a : String) (s : ProposalState) :
    (analyze_brief (Except.ok a) s).error = s.error := rfl

theorem error_generate_scope (r : Except String String) (s : ProposalState) :
    (generate_scope r s).error = s.error := by
  unfold generate_scope
  by_cases h : s.error.isSome
  · simp [h]
  · simp only [h, if_false]
    cases r <;> rfl

theorem estimate_project_err (r : Except String String) (s : ProposalState)
    (h : s.error.isSome) : estimate_project r s = Except.ok s := by
  unfold estimate_project
  simp [h]

theorem estimate_project_ok_strs (r : Except String String) (s : ProposalState)
    (he : s.error = none) (hstr : scopeAllStrings s.scope = true) :
    estimate_project r s = Except.ok
      { s with estimation :=
          estValue r s.scope.length s.request.freelancer_profile.min_price } := by
  have hb : s.error.isSome = false := by rw [he]; rfl
  unfold estimate_project
  simp [hb, hstr]

theorem estimate_project_fields (r : Except String String) (s s' : ProposalState)
    (h : estimate_project r s = Except.ok s') :
    s'.error = s.error ∧ s'.request = s.request ∧ s'.scope = s.scope := by
  unfold estimate_project at h
  by_cases he : s.error.isSome
  · simp [he] at h
    exact h ▸ ⟨rfl, rfl, rfl⟩
  · simp [he] at h
    by_cases hstr : scopeAllStrings s.scope
    · simp [hstr] at h
      exact h ▸ ⟨rfl, rfl, rfl⟩
    · simp [hstr] at h

theorem error_init_sections (s : ProposalState) :
    (init_sections s).error = s.error := rfl

theorem error_generate_introduction (r : Except String String) (s : ProposalState) :
    (generate_introduction r s).error = s.error := by
  unfold generate_introduction
  by_cases h : s.error.isSome <;> simp [h]

theorem error_generate_social_proof (s : ProposalState) :
    (generate_social_proof s).error = s.error := by
  unfold generate_social_proof
  by_cases h : s.error.isSome <;> simp [h]

theorem error_assemble_proposal (s : ProposalState) :
    (assemble_proposal s).error = s.error := by
  unfold assemble_proposal
  by_cases h : s.error.isSome <;> simp [h]

theorem error_configSection (sec : Sec) (r : Except String String) (s s' : ProposalState)
    (h : configSection sec r s = Except.ok s') : s'.error = s.error := by
  unfold configSection at h
  by_cases he : s.error.isSome
  · simp [he] at h
    exact h ▸ rfl
  · simp [he] at h
    cases hc : LANGUAGE_CONFIGS s.request.language with
    | none => rw [hc] at h; exact absurd h (by simp)
    | some config =>
      rw [hc] at h
      by_cases hj : secJoinsScope sec = true ∧ scopeAllStrings s.scope = false
      · simp [hj] at h
      · simp [hj] at h
        exact h ▸ rfl

theorem request_analyze_brief (r : Except String String) (s : ProposalState) :
    (analyze_brief r s).request = s.request := by
  unfold analyze_brief
  cases r <;> simp

theorem request_generate_scope (r : Except String String) (s : ProposalState) :
    (generate_scope r s).request = s.request := by
  unfold generate_scope
  by_cases h : s.error.isSome
  · simp [h]
  · simp only [h, if_false]
    cases r <;> rfl

theorem request_init_sections (s : ProposalState) :
    (init_sections s).request = s.request := rfl

theorem request_generate_introduction (r : Except String String) (s : ProposalState) :
    (generate_introduction r s).request = s.request := by
  unfold generate_introduction
  by_cases h : s.error.isSome <;> simp [h]

theorem request_configSection (sec : Sec) (r : Except String String) (s s' : ProposalState)
    (h : configSection sec r s = Except.ok s') : s'.request = s.request := by
  unfold configSection at h
  by_cases he : s.error.isSome
  · simp [he] at h
    exact h ▸ rfl
  · simp [he] at h
    cases hc : LANGUAGE_CONFIGS s.request.language with
    | none => rw [hc] at h; exact absurd h (by simp)
    | some config =>
      rw [hc] at h
      by_cases hj : secJoinsScope sec = true ∧ scopeAllStrings s.scope = false
      · simp [hj] at h
      · simp [hj] at h
        exact h ▸ rfl

theorem bind_ok {α β : Type} (x : Except String α) (f : α → Except String β) (b : β)
    (h : x.bind f = Except.ok b) : ∃ a, x = Except.ok a ∧ f a = Except.ok b := by
  cases x with
  | error e => exact absurd h (by simp [Except.bind])
  | ok a => exact ⟨a, rfl, h⟩

theorem pipelineHead_error_none (o : Oracle) (req : ProposalRequest) (a : String)
    (s5 : ProposalState) (ha : o.analyze = Except.ok a)
    (h : pipelineHead o req = Except.ok s5) : s5.error = none := by
  unfold pipelineHead at h
  obtain ⟨s3, h3, h5⟩ := bind_ok _ _ _ h
  have h5x : s5 = generate_introduction (o.sect Sec.intro) (init_sections s3) := by
    simpa using h5.symm
  rw [h5x, error_generate_introduction, error_init_sections,
    (estimate_project_fields _ _ _ h3).1, error_generate_scope, ha, error_analyze_ok]
  rfl

theorem pipelineHead_request (o : Oracle) (req : ProposalRequest) (s5 : ProposalState)
    (h : pipelineHead o req = Except.ok s5) : s5.request = req := by
  unfold pipelineHead at h
  obtain ⟨s3, h3, h5⟩ := bind_ok _ _ _ h
  have h5x : s5 = generate_introduction (o.sect Sec.intro) (init_sections s3) := by
    simpa using h5.symm
  rw [h5x, request_generate_introduction, request_init_sections,
    (estimate_project_fields _ _ _ h3).2.1, request_generate_scope, request_analyze_brief]
  rfl

/-! ### Concrete fixtures used by counterexamples and witnesses -/

/-- A concrete request (English). -/
def reqEn : ProposalRequest :=
  ⟨1, "Build a web shop", some "fast delivery", "en", ⟨["PHP", "Vue"], "fixed", 1000, "USD"⟩,
   "https://example.com/cb"⟩

/-- A concrete work record with the terminal error already set and a
nonempty section mapping. -/
def errState : ProposalState :=
  ⟨reqEn, "some analysis", [("introduction", "<p>x</p>")], [Json.jstr "A"], ⟨3, 500⟩,
   "doc", some "boom"⟩

/-- A concrete error-free work record. -/
def okState : ProposalState :=
  ⟨reqEn, "some analysis", [], [], ⟨0, 0⟩, "", none⟩

/-! ### C1 -/

/-- Claim C1 (as stated) is false: `init_sections` is a stage after the
first, yet on a record with the error field set and a nonempty section
mapping it does not return the record unchanged — it resets the section
mapping. -/
theorem c1_counterexample : init_sections errState ≠ errState := by
  intro h
  have h2 := congrArg ProposalState.sections h
  simp [init_sections, errState] at h2

/-- Claim C1 as amended: every stage after the first except the
section-initialization step passes a record with a set error field through
unchanged; `init_sections` alone ignores the error field and resets the
section mapping to empty (all other fields unchanged). -/
theorem c1_amended (s : ProposalState) (r : Except String String) (h : s.error.isSome) :
    generate_scope r s = s ∧
    estimate_project r s = Except.ok s ∧
    generate_introduction r s = s ∧
    generate_needs_assessment r s = Except.ok s ∧
    generate_approach r s = Except.ok s ∧
    generate_strengths r s = Except.ok s ∧
    generate_timeline r s = Except.ok s ∧
    generate_pricing r s = Except.ok s ∧
    generate_credentials r s = Except.ok s ∧
    generate_social_proof s = s ∧
    generate_terms r s = Except.ok s ∧
    assemble_proposal s = s ∧
    init_sections s = { s with sections := [] } := by
  refine ⟨?_, ?_, ?_, ?_, ?_, ?_, ?_, ?_, ?_, ?_, ?_, ?_, rfl⟩ <;>
    simp [generate_scope, estimate_project, generate_introduction,
      generate_needs_assessment, generate_approach, generate_strengths,
      generate_timeline, generate_pricing, generate_credentials,
      generate_social_proof, generate_terms, configSection, assemble_proposal, h]

/-- Witness for `c1_amended` at a concrete record. -/
theorem c1_amended_witness : generate_scope (Except.ok "resp") errState = errState :=
  (c1_amended errState (Except.ok "resp") (by decide)).1

/-! ### C2 -/

/-- Claim C2: when the gateway fails on the brief-analysis call, the run
ends with the terminal error `"Failed to analyze brief: ..."`, the final
record keeps its unpopulated scope, estimation, sections and document, and
the response status is `"failed"` with that message; moreover, on any run
whose brief-analysis call succeeds, the final record's error field is
`none` — no other stage ever sets it. -/
theorem c2_brief_failure (req : ProposalRequest) (o : Oracle) (msg : String)
    (h : o.analyze = Except.error msg) :
    runPipeline o req = Except.ok
      ⟨req, "", [], [], ⟨0, 0⟩, "", some ("Failed to analyze brief: " ++ msg)⟩ ∧
    (process_proposal_sync o req).status = "failed" ∧
    (process_proposal_sync o req).error = some ("Failed to analyze brief: " ++ msg) ∧
    (∀ (o2 : Oracle) (a : String) (fin : ProposalState), o2.analyze = Except.ok a →
       runPipeline o2 req = Except.ok fin → fin.error = none) := by
  have hrun : runPipeline o req = Except.ok
      ⟨req, "", [], [], ⟨0, 0⟩, "", some ("Failed to analyze brief: " ++ msg)⟩ := by
    unfold runPipeline pipelineHead
    rw [h]
    simp [analyze_brief, generate_scope, estimate_project, init_sections,
      generate_introduction, generate_needs_assessment, generate_approach,
      generate_strengths, generate_timeline, generate_pricing, generate_credentials,
      generate_social_proof, generate_terms, configSection, assemble_proposal,
      initialState, Except.bind]
  refine ⟨hrun, ?_, ?_, ?_⟩
  · unfold process_proposal_sync
    rw [hrun]
  · unfold process_proposal_sync
    rw [hrun]
  · intro o2 a fin ha hrun2
    unfold runPipeline at hrun2
    obtain ⟨s5, h5, hrun2⟩ := bind_ok _ _ _ hrun2
    obtain ⟨s6, h6, hrun2⟩ := bind_ok _ _ _ hrun2
    obtain ⟨s7, h7, hrun2⟩ := bind_ok _ _ _ hrun2
    obtain ⟨s8, h8, hrun2⟩ := bind_ok _ _ _ hrun2
    obtain ⟨s9, h9, hrun2⟩ := bind_ok _ _ _ hrun2
    obtain ⟨s10, h10, hrun2⟩ := bind_ok _ _ _ hrun2
    obtain ⟨s11, h11, hrun2⟩ := bind_ok _ _ _ hrun2
    obtain ⟨s13, h13, hrun2⟩ := bind_ok _ _ _ hrun2
    have hfin : fin = assemble_proposal s13 := by
      simpa using hrun2.symm
    unfold generate_needs_assessment at h6
    unfold generate_approach at h7
    unfold generate_strengths at h8
    unfold generate_timeline at h9
    unfold generate_pricing at h10
    unfold generate_credentials at h11
    unfold generate_terms at h13
    rw [hfin, error_assemble_proposal,
      error_configSection _ _ _ _ h13, error_generate_social_proof,
      error_configSection _ _ _ _ h11, error_configSection _ _ _ _ h10,
      error_configSection _ _ _ _ h9, error_configSection _ _ _ _ h8,
      error_configSection _ _ _ _ h7, error_configSection _ _ _ _ h6]
    exact pipelineHead_error_none o2 req a s5 ha h5

/-- Witness for `c2_brief_failure` at a concrete request and oracle. -/
theorem c2_brief_failure_witness :
    (process_proposal_sync
      ⟨Except.error "conn reset", Except.ok "b", Except.ok "c", fun _ => Except.ok "d"⟩
      reqEn).status = "failed" :=
  (c2_brief_failure reqEn
    ⟨Except.error "conn reset", Except.ok "b", Except.ok "c", fun _ => Except.ok "d"⟩
    "conn reset" rfl).2.1

/-! ### C3 -/

/-- Claim C4 (as stated) is false: on a response whose JSON object contains
only `"price"`, the code raises `KeyError` on `duration_days` inside the
`try` and falls back for both fields, so the present `price` field is not
kept. -/
theorem c4_counterexample :
    estimateFromContent "\x7b\"price\": 7\x7d" 2 100 = ⟨10, 100⟩ ∧
    (estimateFromContent "\x7b\"price\": 7\x7d" 2 100).price ≠ 7 :=
  ⟨rfl, by decide⟩

/-- Claim C4 as amended: a parsed object overrides the fallback only when
both `duration_days` and `price` are present and `int`-convertible; if
either is missing or unconvertible the full fallback pair is used; and the
absence of a whole JSON-object-shaped substring never raises, it only
triggers the full fallback. -/
theorem c4_amended (content : String) (sc : Nat) (mp : Int) :
    (findJsonObj content.data = none →
       estimateFromContent content sc mp = fallbackEstimation sc mp) ∧
    (∀ objStr v, findJsonObj content.data = some objStr → jsonLoads objStr = some v →
       ((jsonGet v "duration_days").bind pyToInt = none ∨
        (jsonGet v "price").bind pyToInt = none) →
       estimateFromContent content sc mp = fallbackEstimation sc mp) ∧
    (∀ objStr v d p, findJsonObj content.data = some objStr → jsonLoads objStr = some v →
       (jsonGet v "duration_days").bind pyToInt = some d →
       (jsonGet v "price").bind pyToInt = some p →
       estimateFromContent content sc mp = ⟨d, p⟩) := by
  refine ⟨fun h => ?_, fun objStr v h1 h2 h3 => ?_, fun objStr v d p h1 h2 h3 h4 => ?_⟩ <;>
    unfold estimateFromContent
  · rw [h]
  · simp only [h1, h2]
    rcases h3 with h3 | h3
    · rw [h3]
    · rw [h3]
      cases (jsonGet v "duration_days").bind pyToInt <;> rfl
  · simp only [h1, h2, h3, h4]

/-- Witness for `c4_amended`: the price-only object falls back entirely. -/
theorem c4_amended_witness :
    estimateFromContent "\x7b\"price\": 7\x7d" 2 100 = fallbackEstimation 2 100 :=
  (c4_amended "\x7b\"price\": 7\x7d" 2 100).2.1 _ _ rfl rfl (Or.inl rfl)

/-! ### C5 -/

/-- Claim C5 (as stated) is false: a response whose cleaned text parses
successfully to a non-list (here the JSON number `42`) does not yield the
fixed three-item default list — the stage stores the singleton list holding
the cleaned response text. -/
theorem c5_counterexample :
    (generate_scope (Except.ok "42") okState).scope = [Json.jstr "42"] ∧
    (generate_scope (Except.ok "42") okState).scope ≠ defaultScope "en" := by
  refine ⟨rfl, fun h => ?_⟩
  have h2 : ([Json.jstr "42"] : List Json) = defaultScope "en" := by
    calc ([Json.jstr "42"] : List Json)
        = (generate_scope (Except.ok "42") okState).scope := rfl
      _ = defaultScope "en" := h
  have h3 := congrArg List.length h2
  simp [defaultScope] at h3

/-- Claim C5 as amended: after stripping code-fence markup, a strict JSON
parse yielding a list is used verbatim (so the fenced `["A","B"]` example
yields that scope); a parse that succeeds with a non-list value stores the
singleton list holding the cleaned response text; a parse failure (and a
gateway failure) stores the fixed three-item language-specific default
list; and the stage never touches the terminal error field. -/
theorem c5_amended (s : ProposalState) (content e : String) (h : s.error = none) :
    (∀ xs, jsonLoads (scopeClean content) = some (Json.jarr xs) →
       (generate_scope (Except.ok content) s).scope = xs) ∧
    (∀ v, jsonLoads (scopeClean content) = some v → (∀ xs, v ≠ Json.jarr xs) →
       (generate_scope (Except.ok content) s).scope =
         [Json.jstr (String.mk (scopeClean content))]) ∧
    (jsonLoads (scopeClean content) = none →
       (generate_scope (Except.ok content) s).scope = defaultScope s.request.language) ∧
    (generate_scope (Except.error e) s).scope = defaultScope s.request.language ∧
    (∀ r, (generate_scope r s).error = s.error) ∧
    (generate_scope (Except.ok "```json\n[\"A\",\"B\"]\n```") s).scope =
      [Json.jstr "A", Json.jstr "B"] ∧
    (generate_scope (Except.ok "not json") s).scope = defaultScope s.request.language := by
  have herr : s.error.isSome = false := by rw [h]; rfl
  refine ⟨fun xs hx => ?_, fun v hv hne => ?_, fun hn => ?_, ?_,
    fun r => error_generate_scope r s, ?_, ?_⟩
  · simp [generate_scope, herr, scopeResult, scopeParse, scopeDecide, hx]
  · have : scopeDecide (scopeClean content) = some [Json.jstr (String.mk (scopeClean content))] := by
      unfold scopeDecide
      rw [hv]
      cases v with
      | jarr xs => exact absurd rfl (hne xs)
      | jnull => rfl
      | jbool b => rfl
      | jnum n => rfl
      | jstr str => rfl
      | jobj fs => rfl
    simp [generate_scope, herr, scopeResult, scopeParse, this]
  · simp [generate_scope, herr, scopeResult, scopeParse, scopeDecide, hn]
  · simp [generate_scope, herr]
  · simp [generate_scope, herr]
    rfl
  · simp [generate_scope, herr]
    rfl

/-- Witness for `c5_amended`: the fenced list example at a concrete record. -/
theorem c5_amended_witness :
    (generate_scope (Except.ok "```json\n[\"A\",\"B\"]\n```") okState).scope =
      [Json.jstr "A", Json.jstr "B"] :=
  (c5_amended okState "x" "e" rfl).2.2.2.2.2.1

/-! ### C6 -/

theorem takeWhile_app_all (p : Char → Bool) (a b : List Char) (h : ∀ c ∈ a, p c) :
    (a ++ b).takeWhile p = a ++ b.takeWhile p := by
  induction a with
  | nil => rfl
  | cons c rest ih =>
    simp only [List.cons_append, List.takeWhile_cons, h c (by simp), ih
      (fun x hx => h x (by simp [hx]))]
    simp

theorem findJsonObj_none (l : List Char) (h : lbrC ∉ l) : findJsonObj l = none := by
  induction l with
  | nil => rfl
  | cons c rest ih =>
    unfold findJsonObj
    rw [if_neg (fun hc => h (by rw [hc]; exact List.mem_cons_self lbrC rest))]
    exact ih (fun hc => h (List.mem_cons_of_mem c hc))

theorem findJsonObj_sandwich (pre interior post : List Char)
    (hpre : lbrC ∉ pre) (hint : rbrC ∉ interior) (hne : interior ≠ []) :
    findJsonObj (pre ++ lbrC :: (interior ++ rbrC :: post)) =
      some (lbrC :: interior ++ [rbrC]) := by
  have hbody : (interior ++ rbrC :: post).takeWhile (· ≠ rbrC) = interior := by
    rw [takeWhile_app_all _ _ _ (fun c hc => by
      simp only [decide_eq_true_eq]
      exact fun hEq => hint (by rw [hEq] at hc; exact hc))]
    simp [List.takeWhile_cons]
  induction pre with
  | nil =>
    rw [List.nil_append]
    unfold findJsonObj
    rw [if_pos rfl, hbody]
    have hlen : interior.length < (interior ++ rbrC :: post).length := by
      simp [List.length_append]
    rw [if_pos ⟨hne, hlen⟩]
  | cons c rest ih =>
    rw [List.cons_append]
    unfold findJsonObj
    rw [if_neg (fun hc => hpre (by rw [hc]; exact List.mem_cons_self lbrC rest))]
    exact ih (fun hc => hpre (List.mem_cons_of_mem c hc))

/-- Claim C6: the estimation extractor parses the first
JSON-object-shaped substring: any response of the form
`free text {"duration_days": 14, "price": 5000000} anything` (with no `\x7b`
earlier in the free text) yields estimation `(14, 5000000)`, and a response
containing no `\x7b` at all yields the deterministic fallback
`(min(scope_count * 5, 30), min_price)`. -/
theorem c6_estimation_extraction :
    (∀ (pre post : String) (sc : Nat) (mp : Int), lbrC ∉ pre.data →
       estimateFromContent
         (pre ++ "\x7b\"duration_days\": 14, \"price\": 5000000\x7d" ++ post) sc mp =
         ⟨14, 5000000⟩) ∧
    (∀ (content : String) (sc : Nat) (mp : Int), lbrC ∉ content.data →
       estimateFromContent content sc mp = ⟨Int.ofNat (min (sc * 5) 30), mp⟩) := by
  constructor
  · intro pre post sc mp hpre
    have h1 : findJsonObj
        (pre ++ "\x7b\"duration_days\": 14, \"price\": 5000000\x7d" ++ post).data =
        some ("\x7b\"duration_days\": 14, \"price\": 5000000\x7d" : String).data := by
      show findJsonObj
        ((pre.data ++ ("\x7b\"duration_days\": 14, \"price\": 5000000\x7d" : String).data)
          ++ post.data) = _
      rw [List.append_assoc]
      exact findJsonObj_sandwich pre.data
        ("\"duration_days\": 14, \"price\": 5000000" : String).data post.data
        hpre (by decide) (by decide)
    unfold estimateFromContent
    rw [h1]
    rfl
  · intro content sc mp hc
    unfold estimateFromContent
    rw [findJsonObj_none content.data hc]
    rfl

/-- Witness for `c6_estimation_extraction`: the object embedded in concrete
free text. -/
theorem c6_estimation_extraction_witness :
    estimateFromContent
      ("Sure: " ++ "\x7b\"duration_days\": 14, \"price\": 5000000\x7d" ++ " thanks") 3 500 =
      ⟨14, 5000000⟩ :=
  c6_estimation_extraction.1 "Sure: " " thanks" 3 500 (by decide)

/-! ### C7 -/

/-- Python-dict lookup only depends on the key-value multiset when keys are
unique: permuting an association list with nodup keys does not change
`dictGetD`. -/
theorem dictGetD_perm {m1 m2 : List (String × String)} (hp : m1.Perm m2)
    (hn : (m1.map Prod.fst).Nodup) : ∀ k d, dictGetD m1 k d = dictGetD m2 k d := by
  induction hp with
  | nil => intro k d; rfl
  | cons x hp2 ih =>
    intro k d
    obtain ⟨k', v'⟩ := x
    simp only [dictGetD]
    by_cases hk : k' = k
    · simp [hk]
    · simp only [hk, if_false]
      exact ih (by simpa using hn.of_cons) k d
  | swap x y l =>
    intro k d
    obtain ⟨kx, vx⟩ := x
    obtain ⟨ky, vy⟩ := y
    have hne : ky ≠ kx := by
      simp only [List.map, List.nodup_cons, List.mem_cons] at hn
      exact fun hEq => hn.1 (Or.inl hEq)
    simp only [dictGetD]
    by_cases h1 : ky = k <;> by_cases h2 : kx = k <;> simp [h1, h2]
    exact absurd (h1.trans h2.symm) hne
  | trans hp1 hp2 ih1 ih2 =>
    intro k d
    have hn2 : (_ : List (String × String)).map Prod.fst |>.Nodup := (hp1.map Prod.fst).nodup hn
    exact (ih1 hn k d).trans (ih2 hn2 k d)

/-- Claim C7: with no error set, the assembled document is the non-empty
section contents read in the fixed canonical key order, empties omitted,
joined by a blank line; and the assembly is a function of the mapping's
lookup semantics only — permuting the order in which (distinct-keyed)
sections were inserted does not change the document. -/
theorem c7_assembly (s : ProposalState) (h : s.error = none) :
    (assemble_proposal s).proposal_html =
      String.intercalate "\n\n"
        ((canonicalKeys.map (fun k => dictGetD s.sections k "")).filter (· ≠ "")) ∧
    (∀ m1 m2 : List (String × String), m1.Perm m2 → (m1.map Prod.fst).Nodup →
       assembleHtml m1 = assembleHtml m2) := by
  constructor
  · have hs : s.error.isSome = false := by rw [h]; rfl
    simp [assemble_proposal, hs, assembleHtml, canonicalKeys]
  · intro m1 m2 hp hn
    unfold assembleHtml
    rw [dictGetD_perm hp hn "introduction" "", dictGetD_perm hp hn "needs" "",
      dictGetD_perm hp hn "approach" "", dictGetD_perm hp hn "strengths" "",
      dictGetD_perm hp hn "timeline" "", dictGetD_perm hp hn "pricing" "",
      dictGetD_perm hp hn "credentials" "", dictGetD_perm hp hn "social_proof" "",
      dictGetD_perm hp hn "terms" ""]

/-- Witness for `c7_assembly`: a permuted concrete mapping assembles to the
same document. -/
theorem c7_assembly_witness :
    assembleHtml [("introduction", "<p>i</p>"), ("terms", "<p>t</p>")] =
      assembleHtml [("terms", "<p>t</p>"), ("introduction", "<p>i</p>")] :=
  (c7_assembly okState rfl).2
    [("introduction", "<p>i</p>"), ("terms", "<p>t</p>")]
    [("terms", "<p>t</p>"), ("introduction", "<p>i</p>")]
    (List.Perm.swap _ _ _) (by decide)

/-! ### C8 -/

/-- Oracle used against claim C8: all gateway calls succeed and the scope
response decodes to a list of numbers. -/
def oracleC8 : Oracle :=
  ⟨Except.ok "a", Except.ok "[1, 2, 3]", Except.ok "c", fun _ => Except.ok "d"⟩

/-- Claim C8 (as stated) is false: at the unsupported language `"fr"` with
a successful brief analysis, a scope response decoding to the list
`[1, 2, 3]` makes the run abort in `estimate_project` — the scope join
sits outside that stage\x27s exception handler and raises `TypeError`
before any stage indexes `LANGUAGE_CONFIGS` — so the run does not abort
with the `KeyError` the claim requires. -/
theorem c8_counterexample :
    runPipeline oracleC8 { reqEn with language := "fr" } = Except.error typeErrorJoin ∧
    runPipeline oracleC8 { reqEn with language := "fr" } ≠
      Except.error ("KeyError: " ++ "fr") ∧
    (process_proposal_sync oracleC8 { reqEn with language := "fr" }).status = "failed" := by
  have hrun : runPipeline oracleC8 { reqEn with language := "fr" } =
      Except.error typeErrorJoin := rfl
  refine ⟨hrun, fun h => ?_, rfl⟩
  rw [hrun] at h
  injection h with h3
  exact absurd h3 (by decide)

/-- Claim C8 as amended: for a request whose language code is neither
`"en"` nor `"id"`, whose brief analysis succeeds and whose decoded scope
items are all strings, `generate_needs_assessment` indexes
`LANGUAGE_CONFIGS` outside its exception handler and raises `KeyError`, so
the whole run aborts with the exception instead of a fallback fragment or
a recorded terminal error, and the stage function is not total over
arbitrary language codes. -/
theorem c8_amended (req : ProposalRequest) (o : Oracle) (a : String)
    (h1 : req.language ≠ "en") (h2 : req.language ≠ "id") (h3 : o.analyze = Except.ok a)
    (hstr : scopeAllStrings
      (generate_scope o.scope (analyze_brief o.analyze (initialState req))).scope = true) :
    runPipeline o req = Except.error ("KeyError: " ++ req.language) ∧
    (process_proposal_sync o req).status = "failed" ∧
    (process_proposal_sync o req).error = some ("KeyError: " ++ req.language) ∧
    (∀ (s : ProposalState) (r : Except String String), s.error = none →
       LANGUAGE_CONFIGS s.request.language = none →
       generate_needs_assessment r s = Except.error ("KeyError: " ++ s.request.language)) := by
  have hcfg : LANGUAGE_CONFIGS req.language = none := by
    unfold LANGUAGE_CONFIGS
    rw [if_neg h1, if_neg h2]
  have hstage : ∀ (s : ProposalState) (r : Except String String), s.error = none →
      LANGUAGE_CONFIGS s.request.language = none →
      generate_needs_assessment r s = Except.error ("KeyError: " ++ s.request.language) := by
    intro s r hse hsc
    unfold generate_needs_assessment configSection
    rw [hse]
    simp [hsc]
  have he2 : (generate_scope o.scope (analyze_brief o.analyze (initialState req))).error
      = none := by
    rw [error_generate_scope, h3, error_analyze_ok]
    rfl
  obtain ⟨s5, hhead⟩ : ∃ s5, pipelineHead o req = Except.ok s5 :=
    ⟨_, by unfold pipelineHead; rw [estimate_project_ok_strs _ _ he2 hstr]; rfl⟩
  have e5 : s5.error = none := pipelineHead_error_none o req a s5 h3 hhead
  have r5 : s5.request = req := pipelineHead_request o req s5 hhead
  have hrun : runPipeline o req = Except.error ("KeyError: " ++ req.language) := by
    unfold runPipeline
    rw [hhead]
    simp only [Except.bind]
    rw [hstage s5 (o.sect Sec.needs) e5 (by rw [r5]; exact hcfg), r5]
  refine ⟨hrun, ?_, ?_, hstage⟩ <;> unfold process_proposal_sync <;> rw [hrun]

/-- Witness for `c8_amended` at language `"fr"` with an all-string scope. -/
theorem c8_amended_witness :
    runPipeline ⟨Except.ok "a", Except.ok "b", Except.ok "c", fun _ => Except.ok "d"⟩
      { reqEn with language := "fr" } = Except.error ("KeyError: " ++ "fr") :=
  (c8_amended { reqEn with language := "fr" }
    ⟨Except.ok "a", Except.ok "b", Except.ok "c", fun _ => Except.ok "d"⟩
    "a" (by decide) (by decide) rfl (by decide)).1

/-! ### C9 -/

/-- Claim C9: the content normalizer satisfies the two literal input/output
pairs from §8 of the spec: the conversational preamble example and the
no-tag line-wrapping example. -/
theorem c9_normalizer_examples :
    clean_html "Here is the result:\n<p>Hello</p>" = "<p>Hello</p>" ∧
    clean_html "Plain line one\nPlain line two" =
      "<p>Plain line one</p>\n<p>Plain line two</p>" :=
  ⟨rfl, rfl⟩

/-! ### C10 -/

theorem mem_pyStrip {c : Char} {l : List Char} (h : c ∈ pyStrip l) : c ∈ l := by
  unfold pyStrip at h
  rw [List.mem_reverse] at h
  have h2 := (List.dropWhile_sublist pyWs).mem h
  rw [List.mem_reverse] at h2
  exact (List.dropWhile_sublist pyWs).mem h2

theorem splitNl_ne_nil (l : List Char) : splitNl l ≠ [] := by
  cases l with
  | nil => simp [splitNl]
  | cons c rest =>
    unfold splitNl
    cases splitNl rest with
    | nil => simp
    | cons s ss =>
      by_cases hc : c = '\n' <;> simp [hc]

theorem splitNl_no_nl {p : List Char} {l : List Char} (hp : p ∈ splitNl l) : '\n' ∉ p := by
  induction l generalizing p with
  | nil =>
    simp [splitNl] at hp
    simp [hp]
  | cons c rest ih =>
    unfold splitNl at hp
    cases hs : splitNl rest with
    | nil => exact absurd hs (splitNl_ne_nil rest)
    | cons s ss =>
      rw [hs] at hp
      by_cases hc : c = '\n'
      · simp [hc] at hp
        rcases hp with hp | hp | hp
        · simp [hp]
        · exact ih (hp ▸ hs ▸ List.mem_cons_self s ss)
        · exact ih (hs ▸ List.mem_cons_of_mem s hp)
      · simp [hc] at hp
        rcases hp with hp | hp
        · intro hmem
          rw [hp] at hmem
          rcases List.mem_cons.mp hmem with hEq | hmem2
          · exact hc hEq.symm
          · exact ih (hs ▸ List.mem_cons_self s ss) hmem2
        · exact ih (hs ▸ List.mem_cons_of_mem s hp)

theorem mem_splitNl {c : Char} {p : List Char} {l : List Char}
    (hp : p ∈ splitNl l) (hc : c ∈ p) : c ∈ l := by
  induction l generalizing p with
  | nil =>
    simp [splitNl] at hp
    rw [hp] at hc
    exact absurd hc (List.not_mem_nil c)
  | cons d rest ih =>
    unfold splitNl at hp
    cases hs : splitNl rest with
    | nil => exact absurd hs (splitNl_ne_nil rest)
    | cons s ss =>
      rw [hs] at hp
      by_cases hd : d = '\n'
      · simp [hd] at hp
        rcases hp with hp | hp | hp
        · rw [hp] at hc; exact absurd hc (List.not_mem_nil c)
        · exact List.mem_cons_of_mem d (ih (hp ▸ hs ▸ List.mem_cons_self s ss) hc)
        · exact List.mem_cons_of_mem d (ih (hs ▸ List.mem_cons_of_mem s hp) hc)
      · simp [hd] at hp
        rcases hp with hp | hp
        · rw [hp] at hc
          rcases List.mem_cons.mp hc with hEq | hmem2
          · exact hEq ▸ List.mem_cons_self d rest
          · exact List.mem_cons_of_mem d (ih (hs ▸ List.mem_cons_self s ss) hmem2)
        · exact List.mem_cons_of_mem d (ih (hs ▸ List.mem_cons_of_mem s hp) hc)

theorem removeTicks_id {l : List Char} (h : tickC ∉ l) : removeTicks l = l := by
  induction l with
  | nil => rfl
  | cons a tail ih =>
    have hna : a ≠ tickC := fun hEq => h (hEq ▸ List.mem_cons_self a tail)
    have htail : tickC ∉ tail := fun hm => h (List.mem_cons_of_mem a hm)
    cases tail with
    | nil => rfl
    | cons b tail2 =>
      cases tail2 with
      | nil => rfl
      | cons c tail3 =>
        unfold removeTicks
        rw [if_neg (by simp [hna])]
        rw [ih htail]

theorem removeFence4_id {w x y z : Char} {l : List Char} (h : tickC ∉ l) :
    removeFence4 w x y z l = l := by
  induction l with
  | nil => rfl
  | cons a tail ih =>
    have hna : a ≠ tickC := fun hEq => h (hEq ▸ List.mem_cons_self a tail)
    have htail : tickC ∉ tail := fun hm => h (List.mem_cons_of_mem a hm)
    cases tail with
    | nil => rfl
    | cons b t2 =>
      cases t2 with
      | nil => rfl
      | cons c t3 =>
        cases t3 with
        | nil => rfl
        | cons d t4 =>
          cases t4 with
          | nil => rfl
          | cons e t5 =>
            cases t5 with
            | nil => rfl
            | cons f t6 =>
              cases t6 with
              | nil => rfl
              | cons g t7 =>
                unfold removeFence4
                rw [if_neg (by simp [hna])]
                rw [ih htail]

theorem findTag_none {l : List Char} (h : '<' ∉ l) : findTag l = none := by
  induction l with
  | nil => rfl
  | cons c rest ih =>
    have hnc : c ≠ '<' := fun hEq => h (hEq ▸ List.mem_cons_self c rest)
    unfold findTag
    rw [if_neg (by simp [hnc])]
    rw [ih (fun hm => h (List.mem_cons_of_mem c hm))]
    rfl

theorem dropWhile_all_eq_nil {p : Char → Bool} {l : List Char} (h : ∀ c ∈ l, p c) :
    l.dropWhile p = [] := by
  induction l with
  | nil => rfl
  | cons c rest ih =>
    rw [List.dropWhile_cons, if_pos (h c (List.mem_cons_self c rest))]
    exact ih (fun d hd => h d (List.mem_cons_of_mem c hd))

theorem mem_takeWhile {p : Char → Bool} {c : Char} {l : List Char}
    (h : c ∈ l.takeWhile p) : c ∈ l := by
  induction l with
  | nil => simpa using h
  | cons d rest ih =>
    rw [List.takeWhile_cons] at h
    by_cases hp : p d
    · rw [if_pos hp] at h
      rcases List.mem_cons.mp h with hEq | hm
      · exact hEq ▸ List.mem_cons_self d rest
      · exact List.mem_cons_of_mem d (ih hm)
    · rw [if_neg hp] at h
      exact absurd h (List.not_mem_nil c)

/-- A segment containing no newline can never satisfy the orphan-site
pattern (`\s*\n\s*([^<\n]+)\s*\n\s*` needs two newlines). -/
theorem siteMatch_no_nl {w : List Char} (h : '\n' ∉ w) : siteMatch w = none := by
  unfold siteMatch
  by_cases hall : w.all pyWs
  · rw [if_pos hall]
    have hd : w.dropWhile (· ≠ '\n') = [] :=
      dropWhile_all_eq_nil (fun c hc => by
        simp only [decide_eq_true_eq]
        exact fun hEq => h (hEq ▸ hc))
    rw [show siteBetween w = [] from by unfold siteBetween; rw [hd]; rfl]
    rfl
  · rw [if_neg hall]
    have h1 : ('\n' ∈ w.takeWhile pyWs) = False := by
      simp only [eq_iff_iff, iff_false]
      exact fun hm => h (mem_takeWhile hm)
    simp only [h1]
    simp

theorem trySite_nil : trySite [] = none := rfl

/-- A site whose segment up to the next `<` is newline-free fails. -/
theorem trySite_seg_fail {w z : List Char} (hnl : '\n' ∉ w) (hlt : '<' ∉ w) :
    trySite (w ++ '<' :: z) = none := by
  have hseg : (w ++ '<' :: z).takeWhile (· ≠ '<') = w := by
    rw [takeWhile_app_all _ _ _ (fun c hc => by
      simp only [decide_eq_true_eq]
      exact fun hEq => hlt (hEq ▸ hc))]
    simp [List.takeWhile_cons]
  unfold trySite
  rw [hseg]
  rw [if_neg (by simp [List.length_append])]
  rw [siteMatch_no_nl hnl]

/-- The single-newline segment right after a closing tag fails. -/
theorem trySite_nl_lt (z : List Char) : trySite ('\n' :: '<' :: z) = none := by
  have hseg : ('\n' :: '<' :: z).takeWhile (· ≠ '<') = ['\n'] := rfl
  unfold trySite
  rw [hseg]
  rw [if_neg (by simp)]
  rfl

/-- No position right after a `>` in `T` admits an orphan-site match. -/
def NoSite (T : List Char) : Prop :=
  ∀ a b : List Char, T = a ++ '>' :: b → trySite b = none

theorem noSite_nil : NoSite [] := by
  intro a b hab
  exact absurd hab (by simp)

theorem noSite_cons {c : Char} {T : List Char} (hc : c ≠ '>') (h : NoSite T) :
    NoSite (c :: T) := by
  intro a b hab
  cases a with
  | nil =>
    simp only [List.nil_append, List.cons.injEq] at hab
    exact absurd hab.1 hc
  | cons d a' =>
    simp only [List.cons_append, List.cons.injEq] at hab
    exact h a' b hab.2

/-- On a site-free text the orphan pass is the identity, for any fuel. -/
theorem orphanGo_id {T : List Char} (h : NoSite T) : ∀ fuel, orphanGo fuel T = T := by
  intro fuel
  induction fuel generalizing T with
  | zero => rfl
  | succ n ih =>
    cases T with
    | nil => rfl
    | cons c rest =>
      have hrest : NoSite rest := by
        intro a b hab
        exact h (c :: a) b (by rw [hab]; rfl)
      unfold orphanGo
      by_cases hc : c = '>'
      · rw [if_pos hc, h [] rest (by rw [hc]; rfl)]
        rw [ih hrest]
      · rw [if_neg hc, ih hrest]

theorem orphanSub_id {T : List Char} (h : NoSite T) : orphanSub T = T :=
  orphanGo_id h T.length

/-- A wrapped newline-free, `<`-free line followed by either nothing or a
newline and another tag block contributes no orphan site. -/
theorem noSite_wrap_append (l rest : List Char)
    (hnl : '\n' ∉ l) (hlt : '<' ∉ l)
    (hrest : rest = [] ∨ ∃ z, rest = '\n' :: '<' :: z)
    (hns : NoSite rest) :
    NoSite (wrapP l ++ rest) := by
  intro u v huv
  have hshape : wrapP l ++ rest = '<' :: 'p' :: '>' :: (l ++ '<' :: '/' :: 'p' :: '>' :: rest) := by
    unfold wrapP
    simp [List.append_assoc]
  rw [hshape] at huv
  cases u with
  | nil => simp at huv
  | cons c1 a1 =>
    simp only [List.cons_append, List.cons.injEq] at huv
    obtain ⟨hc1, huv⟩ := huv
    cases a1 with
    | nil => simp at huv
    | cons c2 a2 =>
      simp only [List.cons_append, List.cons.injEq] at huv
      obtain ⟨hc2, huv⟩ := huv
      cases a2 with
      | nil =>
        simp only [List.nil_append, List.cons.injEq] at huv
        rw [← huv.2]
        exact trySite_seg_fail hnl hlt
      | cons c3 a3 =>
        simp only [List.cons_append, List.cons.injEq] at huv
        obtain ⟨hc3, huv⟩ := huv
        rcases List.append_eq_append_iff.mp huv with ⟨a', ha1, ha2⟩ | ⟨c', hl, hv⟩
        · cases a' with
          | nil => simp at ha2
          | cons e1 a4 =>
            simp only [List.cons_append, List.cons.injEq] at ha2
            obtain ⟨he1, ha2⟩ := ha2
            cases a4 with
            | nil => simp at ha2
            | cons e2 a5 =>
              simp only [List.cons_append, List.cons.injEq] at ha2
              obtain ⟨he2, ha2⟩ := ha2
              cases a5 with
              | nil => simp at ha2
              | cons e3 a6 =>
                simp only [List.cons_append, List.cons.injEq] at ha2
                obtain ⟨he3, ha2⟩ := ha2
                cases a6 with
                | nil =>
                  simp only [List.nil_append, List.cons.injEq] at ha2
                  rw [← ha2.2]
                  rcases hrest with hr | ⟨z, hr⟩
                  · rw [hr]; exact trySite_nil
                  · rw [hr]; exact trySite_nl_lt z
                | cons e4 a7 =>
                  simp only [List.cons_append, List.cons.injEq] at ha2
                  exact hns a7 v ha2.2
        · cases c' with
          | nil => simp at hv
          | cons e c2' =>
            simp only [List.cons_append, List.cons.injEq] at hv
            obtain ⟨he, hv⟩ := hv
            have hmem : ∀ x ∈ c2', x ∈ l := by
              intro x hx
              rw [hl]
              exact List.mem_append_right a3 (List.mem_cons_of_mem e hx)
            rw [hv]
            exact trySite_seg_fail
              (fun hm => hnl (hmem '\n' hm))
              (fun hm => hlt (hmem '<' hm))

theorem joinNl_wrap_head (l : List Char) (ws : List (List Char)) :
    ∃ z, joinNl (wrapP l :: ws) = '<' :: 'p' :: '>' :: z := by
  cases ws with
  | nil => exact ⟨l ++ ['<', '/', 'p', '>'], rfl⟩
  | cons w ws' =>
    refine ⟨(l ++ ['<', '/', 'p', '>']) ++ '\n' :: joinNl (w :: ws'), ?_⟩
    show wrapP l ++ '\n' :: joinNl (w :: ws') = _
    unfold wrapP
    simp

theorem noSite_joinNl : ∀ L : List (List Char),
    (∀ l ∈ L, '\n' ∉ l ∧ '<' ∉ l) → NoSite (joinNl (L.map wrapP)) := by
  intro L
  induction L with
  | nil => intro _; exact noSite_nil
  | cons l L' ih =>
    intro hgood
    have hl := hgood l (List.mem_cons_self l L')
    have hL' : ∀ m ∈ L', '\n' ∉ m ∧ '<' ∉ m :=
      fun m hm => hgood m (List.mem_cons_of_mem l hm)
    simp only [List.map_cons]
    cases L' with
    | nil =>
      have hform : joinNl [wrapP l] = wrapP l ++ [] := by simp [joinNl]
      rw [show (List.map wrapP [] : List (List Char)) = [] from rfl, hform]
      exact noSite_wrap_append l [] hl.1 hl.2 (Or.inl rfl) noSite_nil
    | cons l2 ws2 =>
      simp only [List.map_cons]
      have hjoin : joinNl (wrapP l :: wrapP l2 :: ws2.map wrapP) =
          wrapP l ++ '\n' :: joinNl (wrapP l2 :: ws2.map wrapP) := rfl
      rw [hjoin]
      have hns' : NoSite (joinNl (wrapP l2 :: ws2.map wrapP)) := by
        have := ih hL'
        simpa using this
      obtain ⟨z, hz⟩ := joinNl_wrap_head l2 (ws2.map wrapP)
      refine noSite_wrap_append l ('\n' :: joinNl (wrapP l2 :: ws2.map wrapP)) hl.1 hl.2 ?_ ?_
      · exact Or.inr ⟨'p' :: '>' :: z, by rw [hz]⟩
      · exact noSite_cons (by decide) hns'

theorem joinNl_wrap_ends_gt : ∀ (L : List (List Char)), L ≠ [] →
    ∃ T0, joinNl (L.map wrapP) = T0 ++ ['>'] := by
  intro L
  induction L with
  | nil => intro h; exact absurd rfl h
  | cons l L' ih =>
    intro _
    cases hL' : L' with
    | nil =>
      refine ⟨'<' :: 'p' :: '>' :: l ++ ['<', '/', 'p'], ?_⟩
      show wrapP l = _
      unfold wrapP
      simp
    | cons l2 L'' =>
      obtain ⟨T0, hT0⟩ := ih (by rw [hL']; simp)
      rw [hL'] at hT0
      refine ⟨wrapP l ++ '\n' :: T0, ?_⟩
      show joinNl (wrapP l :: wrapP l2 :: L''.map wrapP) = _
      have : joinNl (wrapP l :: wrapP l2 :: L''.map wrapP) =
          wrapP l ++ '\n' :: joinNl (wrapP l2 :: L''.map wrapP) := rfl
      rw [this]
      have h2 : joinNl (wrapP l2 :: L''.map wrapP) = joinNl ((l2 :: L'').map wrapP) := rfl
      rw [h2, hT0]
      simp

theorem pyStrip_id_of_ends (T0 : List Char) (c d : Char)
    (hc : pyWs c = false) (hd : pyWs d = false) :
    pyStrip (c :: (T0 ++ [d])) = c :: (T0 ++ [d]) := by
  unfold pyStrip
  have h1 : List.dropWhile pyWs (c :: (T0 ++ [d])) = c :: (T0 ++ [d]) := by
    rw [List.dropWhile_cons, if_neg (by rw [hc]; simp)]
  rw [h1]
  have h2 : (c :: (T0 ++ [d])).reverse = d :: (T0.reverse ++ [c]) := by
    simp
  rw [h2]
  have h3 : List.dropWhile pyWs (d :: (T0.reverse ++ [c])) = d :: (T0.reverse ++ [c]) := by
    rw [List.dropWhile_cons, if_neg (by rw [hd]; simp)]
  rw [h3, ← h2, List.reverse_reverse]

theorem pyStrip_joinNl_wrapped (L : List (List Char)) :
    pyStrip (joinNl (L.map wrapP)) = joinNl (L.map wrapP) := by
  cases L with
  | nil => rfl
  | cons l L' =>
    obtain ⟨z, hz⟩ := joinNl_wrap_head l (L'.map wrapP)
    obtain ⟨T0, hT0⟩ := joinNl_wrap_ends_gt (l :: L') (by simp)
    have hzT : '<' :: 'p' :: '>' :: z = T0 ++ ['>'] := by
      rw [← hz]
      exact hT0
    cases T0 with
    | nil => simp at hzT
    | cons t T1 =>
      simp only [List.cons_append, List.cons.injEq] at hzT
      rw [hT0]
      simp only [List.cons_append]
      rw [← hzT.1]
      exact pyStrip_id_of_ends T1 '<' '>' (by decide) (by decide)

theorem mem_joinNl {c : Char} : ∀ {ws : List (List Char)},
    c ∈ joinNl ws → c = '\n' ∨ ∃ w ∈ ws, c ∈ w := by
  intro ws
  induction ws with
  | nil => intro h; simp [joinNl] at h
  | cons w ws' ih =>
    intro h
    cases ws' with
    | nil =>
      exact Or.inr ⟨w, List.mem_cons_self w [], h⟩
    | cons w2 ws'' =>
      have hj : joinNl (w :: w2 :: ws'') = w ++ '\n' :: joinNl (w2 :: ws'') := rfl
      rw [hj] at h
      rcases List.mem_append.mp h with hm | hm
      · exact Or.inr ⟨w, List.mem_cons_self w _, hm⟩
      · rcases List.mem_cons.mp hm with hEq | hm2
        · exact Or.inl hEq
        · rcases ih hm2 with hnl | ⟨w', hw', hcw⟩
          · exact Or.inl hnl
          · exact Or.inr ⟨w', List.mem_cons_of_mem w hw', hcw⟩

theorem mem_wrapP {c : Char} {l : List Char} (h : c ∈ wrapP l) :
    c ∈ l ∨ c = '<' ∨ c = 'p' ∨ c = '>' ∨ c = '/' := by
  unfold wrapP at h
  simp only [List.cons_append, List.mem_cons, List.mem_append] at h
  rcases h with h | h | h | h
  · exact Or.inr (Or.inl h)
  · exact Or.inr (Or.inr (Or.inl h))
  · exact Or.inr (Or.inr (Or.inr (Or.inl h)))
  · rcases h with h | h
    · exact Or.inl h
    · simp at h
      rcases h with h | h | h | h
      · exact Or.inr (Or.inl h)
      · exact Or.inr (Or.inr (Or.inr (Or.inr h)))
      · exact Or.inr (Or.inr (Or.inl h))
      · exact Or.inr (Or.inr (Or.inr (Or.inl h)))

theorem matchesTag_p (zs : List Char) : matchesTag ('p' :: zs) = true := by
  unfold matchesTag tagNames
  simp [pyLower, List.any_cons, List.isPrefixOf]

theorem findTag_wrap (zs : List Char) : findTag ('<' :: 'p' :: zs) = some 0 := by
  unfold findTag
  rw [if_pos]
  simp [matchesTag_p]

/-- Re-normalizing a document made of wrapped plain lines changes
nothing: no fences, already stripped, first tag at position 0 with empty
preamble, and no orphan site. -/
theorem cleanHtml_wrapped_fixed (L : List (List Char))
    (htick : tickC ∉ joinNl (L.map wrapP)) (hns : NoSite (joinNl (L.map wrapP))) :
    clean_html (String.mk (joinNl (L.map wrapP))) = String.mk (joinNl (L.map wrapP)) := by
  have hstrip : pyStrip (joinNl (L.map wrapP)) = joinNl (L.map wrapP) :=
    pyStrip_joinNl_wrapped L
  unfold clean_html cleanHtmlL
  rw [show (String.mk (joinNl (L.map wrapP))).data = joinNl (L.map wrapP) from rfl]
  rw [removeFence4_id htick, removeTicks_id htick, hstrip]
  cases L with
  | nil => rfl
  | cons l0 L0 =>
    simp only [List.map_cons]
    obtain ⟨z, hz⟩ := joinNl_wrap_head l0 (L0.map wrapP)
    rw [hz]
    have hback : ('<' : Char) :: 'p' :: '>' :: z = joinNl ((l0 :: L0).map wrapP) := by
      rw [← hz]
      rfl
    have hcore : cleanCore ('<' :: 'p' :: '>' :: z) = '<' :: 'p' :: '>' :: z := by
      unfold cleanCore
      rw [findTag_wrap]
      rfl
    rw [hcore, hback]
    rw [show joinNl ((l0 :: L0).map wrapP) = joinNl (wrapP l0 :: L0.map wrapP) from rfl]
    have hns2 : NoSite (joinNl (wrapP l0 :: L0.map wrapP)) := by
      have := hns
      simp only [List.map_cons] at this
      exact this
    have hstrip2 : pyStrip (joinNl (wrapP l0 :: L0.map wrapP)) =
        joinNl (wrapP l0 :: L0.map wrapP) := by
      have := hstrip
      simp only [List.map_cons] at this
      exact this
    rw [orphanSub_id hns2, hstrip2]

/-- Claim C10 as amended: the normalizer is idempotent on every input
containing no `<` and no backtick (such plain text is wrapped line by line,
and re-normalizing the wrapped output changes nothing); universal
idempotence fails (see the counterexample, where a plain line ending in
`>` is wrapped only by a second pass). -/
theorem c10_amended (x : String) (h1 : '<' ∉ x.data) (h2 : tickC ∉ x.data) :
    clean_html (clean_html x) = clean_html x := by
  have hgood : ∀ l ∈ ((splitNl (pyStrip x.data)).map pyStrip).filter (· ≠ []),
      '\n' ∉ l ∧ '<' ∉ l := by
    intro l hlmem
    obtain ⟨hmap, _⟩ := List.mem_filter.mp hlmem
    obtain ⟨p, hp, hlp⟩ := List.mem_map.mp hmap
    constructor
    · intro hm
      exact splitNl_no_nl hp (mem_pyStrip (hlp ▸ hm))
    · intro hm
      exact h1 (mem_pyStrip (mem_splitNl hp (mem_pyStrip (hlp ▸ hm))))
  set L := ((splitNl (pyStrip x.data)).map pyStrip).filter (· ≠ []) with hLdef
  have hns : NoSite (joinNl (L.map wrapP)) := noSite_joinNl L hgood
  have hstrip : pyStrip (joinNl (L.map wrapP)) = joinNl (L.map wrapP) :=
    pyStrip_joinNl_wrapped L
  have hpass1 : clean_html x = String.mk (joinNl (L.map wrapP)) := by
    unfold clean_html cleanHtmlL
    rw [removeFence4_id h2, removeTicks_id h2]
    have hfind : findTag (pyStrip x.data) = none :=
      findTag_none (fun hm => h1 (mem_pyStrip hm))
    unfold cleanCore
    rw [hfind]
    have hwl : wrapLines (splitNl (pyStrip x.data)) = L.map wrapP := rfl
    rw [hwl, orphanSub_id hns, hstrip]
  have htickT : tickC ∉ joinNl (L.map wrapP) := by
    intro hm
    rcases mem_joinNl hm with hnl | ⟨w, hw, hcw⟩
    · exact absurd hnl (by decide)
    · obtain ⟨l, hlL, hwl⟩ := List.mem_map.mp hw
      rcases mem_wrapP (hwl ▸ hcw) with hm2 | h | h | h | h
      · obtain ⟨hmap, _⟩ := List.mem_filter.mp hlL
        obtain ⟨p, hp, hlp⟩ := List.mem_map.mp hmap
        exact h2 (mem_pyStrip (mem_splitNl hp (mem_pyStrip (hlp ▸ hm2))))
      all_goals exact absurd h (by decide)
  rw [hpass1]
  exact cleanHtml_wrapped_fixed L htickT hns

/-- Witness for `c10_amended` at a concrete two-line plain-text input. -/
theorem c10_amended_witness :
    clean_html (clean_html "alpha\nbeta") = clean_html "alpha\nbeta" :=
  c10_amended "alpha\nbeta" (by decide) (by decide)

/-- Claim C10 (as stated) is false: the normalizer is not idempotent.  On
`"<p>x</p>\na>\nb\n<p>y</p>"` the first pass wraps only the line `b` (the
plain line `a>` is not matched because the line after it is not yet a tag
block), while the second pass additionally wraps `a>`, so normalizing the
output changes it again. -/
theorem c10_counterexample :
    clean_html (clean_html "<p>x</p>\na>\nb\n<p>y</p>") ≠
      clean_html "<p>x</p>\na>\nb\n<p>y</p>" := by
  decide

end AiFreelance
